import Mathlib

/-!
# Shallow embedding of the rapids API-key service

This file embeds the API-key lifecycle and validation engine of
`src/services/rues.service.ts` (the `ApiKeyService` object) together with the
row types of `src/types/index.ts` and the two tables of `src/db/index.ts`
(`api_keys`, `rate_limit_records`).

Modelling conventions:
  * The SQLite store is a pair of lists of rows (`Store`).  `SELECT ... WHERE`
    followed by `.get` is `List.find?`; `UPDATE ... WHERE` is a `List.map`
    rewriting the matching rows; `DELETE ... WHERE` is a `List.filter`;
    `result.changes` of an `UPDATE`/`DELETE` is the number of matched rows.
  * JavaScript timestamps (`Date.now()`, `Date` objects) are `Int`
    milliseconds; `Date` comparison with `<` compares these integers.
  * `crypto.getRandomValues` is modelled by a supplied byte stream
    `bytes : Nat → Nat` (index in the `Uint8Array` ↦ byte value); SHA-256
    (`hashKey`) and `crypto.randomUUID` are supplied as parameters
    `hash : String → String` and `newId : String`, since the claims depend
    only on determinism of the digest, not its value.
  * JavaScript truthiness tests on `number | null` fields
    (`mergedConfig.expiresIn ?`, `row.expires_at ?`, `apiKey.rateLimit`)
    are falsy exactly on `null` and `0`, and are embedded that way.
  * The column `prefix` is a Lean keyword, so the field is named `pfx`.
-/

namespace Rapids

/-- The keys of `CHARSETS` in rues.service.ts (`ApiKeyCharset` in types). -/
inductive Charset
  | alphanumeric
  | alphanumeric_lower
  | alphanumeric_upper
  | hex
  | base64url
deriving DecidableEq, Repr

/-- The `CHARSETS` table of rues.service.ts. -/
def charsetChars : Charset → String
  | .alphanumeric =>
      "abcdefghijklmnopqrstuvwxyzABCDEFGHIJKLMNOPQRSTUVWXYZ0123456789"
  | .alphanumeric_lower => "abcdefghijklmnopqrstuvwxyz0123456789"
  | .alphanumeric_upper => "ABCDEFGHIJKLMNOPQRSTUVWXYZ0123456789"
  | .hex => "0123456789abcdef"
  | .base64url =>
      "abcdefghijklmnopqrstuvwxyzABCDEFGHIJKLMNOPQRSTUVWXYZ0123456789-_"

/-- The configuration after `{ ...DEFAULT_CONFIG, ...config }`: every field is
present, defaults are those of `DEFAULT_CONFIG`.  `charset = none` models a
config whose charset string is not a key of `CHARSETS` (the lookup
`CHARSETS[mergedConfig.charset]` yields `undefined`).  `metadata` and `scopes`
hold the `JSON.stringify` serialisations that create persists. -/
structure MergedConfig where
  pfx : String := "rapids_"
  length : Int := 32
  charset : Option Charset := some .base64url
  expiresIn : Option Int := none
  metadata : String := "{}"
  scopes : String := "[]"
  name : Option String := none
  rateLimit : Option Int := none
deriving DecidableEq, Repr

/-- Runtime errors that `create` can raise, and the store-level unique
constraint of the `api_keys` table. -/
inductive JsError
  | rangeError        -- `new Uint8Array(length)` with a negative length
  | typeError         -- reading `.length` of `undefined` (unknown charset)
  | uniqueConstraint  -- SQLite UNIQUE violation on `id`/`key_hash` at INSERT
deriving DecidableEq, Repr

/-- One loop step of `generateRandomString`: `charset[value % charset.length]`
appended with `+=`.  For an empty charset JavaScript computes `value % 0 = NaN`,
indexes to `undefined` and `+=` appends the text "undefined"; every charset of
`CHARSETS` is nonempty, so that branch is never reached from `create`. -/
def charFromByte (cs : String) (b : Nat) : String :=
  if cs.data.length = 0 then "undefined"
  else String.mk [cs.data.getD (b % cs.data.length) ' ']

/-- The character loop of `generateRandomString` over indices `0..n-1`.
When the charset lookup produced `undefined`, the first iteration throws a
TypeError at `charset.length`; with `n = 0` the loop body never runs and the
empty string is returned.  (The `value !== undefined` guard in the source is
always true: `getRandomValues` filled every index below `length`.) -/
def buildBody (charset : Option String) (bytes : Nat → Nat) (n : Nat) :
    Except JsError String :=
  match charset with
  | none => if n = 0 then .ok "" else .error .typeError
  | some cs => .ok (String.join ((List.range n).map fun i => charFromByte cs (bytes i)))

/-- Result of `generateRandomString`, recording how many random bytes
`crypto.getRandomValues` drew before any failure. -/
structure GenResult where
  result : Except JsError String
  bytesDrawn : Nat
deriving Repr

/-- `generateRandomString(length, charset)` of rues.service.ts.
`new Uint8Array(length)` throws a RangeError for a negative length before any
randomness; otherwise `getRandomValues` draws `length` bytes and the loop
builds the string. -/
def generateRandomString (length : Int) (charset : Option String)
    (bytes : Nat → Nat) : GenResult :=
  if length < 0 then { result := .error .rangeError, bytesDrawn := 0 }
  else { result := buildBody charset bytes length.toNat, bytesDrawn := length.toNat }

/-- A row of the `api_keys` table (`ApiKeyRow` in types/index.ts).
`is_active` is stored as INTEGER 0/1; only 0 and 1 are ever written, so it is
a `Bool` here.  `pfx` is the `prefix` column. -/
structure ApiKeyRow where
  id : String
  key_hash : String
  pfx : String
  suffix : String
  name : Option String
  created_at : Int
  expires_at : Option Int
  last_used_at : Option Int
  is_active : Bool
  metadata : String
  scopes : String
  rate_limit : Option Int
deriving DecidableEq, Repr

/-- The in-memory `ApiKey` object (types/index.ts). -/
structure ApiKey where
  id : String
  keyHash : String
  pfx : String
  suffix : String
  name : Option String
  createdAt : Int
  expiresAt : Option Int
  lastUsedAt : Option Int
  isActive : Bool
  metadata : String
  scopes : String
  rateLimit : Option Int
deriving DecidableEq, Repr

/-- `rowToApiKey` of rues.service.ts.  `row.expires_at ? new Date(...) : null`
and the same for `last_used_at` are truthiness tests on `number | null`:
`null` and `0` both map to `null`. -/
def rowToApiKey (row : ApiKeyRow) : ApiKey :=
  { id := row.id
    keyHash := row.key_hash
    pfx := row.pfx
    suffix := row.suffix
    name := row.name
    createdAt := row.created_at
    expiresAt := match row.expires_at with
      | some t => if t = 0 then none else some t
      | none => none
    lastUsedAt := match row.last_used_at with
      | some t => if t = 0 then none else some t
      | none => none
    isActive := row.is_active
    metadata := row.metadata
    scopes := row.scopes
    rateLimit := row.rate_limit }

/-- A row of the `rate_limit_records` table (PRIMARY KEY (key_id, window_start)). -/
structure RateRecord where
  key_id : String
  window_start : Int
  request_count : Int
deriving DecidableEq, Repr

/-- The SQLite database: the `api_keys` and `rate_limit_records` tables. -/
structure Store where
  apiKeys : List ApiKeyRow
  rateRecords : List RateRecord
deriving DecidableEq, Repr

/-- `rawKey.slice(-4)`: the last four characters, or the whole string when it
is shorter than four characters. -/
def sliceLast4 (s : String) : String :=
  String.mk (s.data.drop (s.data.length - 4))

/-- The expiry computed by `create`:
`mergedConfig.expiresIn ? now + mergedConfig.expiresIn * 1000 : null`.
The truthiness test is falsy on `null` and on `0`. -/
def expiresAtOf (expiresIn : Option Int) (now : Int) : Option Int :=
  match expiresIn with
  | none => none
  | some e => if e = 0 then none else some (now + e * 1000)

/-- What `create` returns together with its effect: the `{key, record}` pair
(as raw key and persisted row) or the error, how many random bytes were drawn,
and the store afterwards. -/
structure CreateOutcome where
  result : Except JsError (String × ApiKeyRow)
  bytesDrawn : Nat
  store : Store
deriving Repr

namespace ApiKeyService

/-- `ApiKeyService.create(config)`.  `hash` stands for `hashKey` (SHA-256 hex),
`newId` for `crypto.randomUUID()`, `bytes` for the random array, `now` for
`Date.now()`.  The record the source returns carries the same fields as the
inserted row (with `lastUsedAt = null`, `isActive = true`), so the row stands
for both. -/
def create (cfg : MergedConfig) (hash : String → String) (newId : String)
    (bytes : Nat → Nat) (now : Int) (s : Store) : CreateOutcome :=
  let charset := cfg.charset.map charsetChars
  let gen := generateRandomString cfg.length charset bytes
  match gen.result with
  | .error e => { result := .error e, bytesDrawn := gen.bytesDrawn, store := s }
  | .ok randomPart =>
    let rawKey := cfg.pfx ++ randomPart
    let keyHash := hash rawKey
    let expiresAt := expiresAtOf cfg.expiresIn now
    let row : ApiKeyRow :=
      { id := newId
        key_hash := keyHash
        pfx := cfg.pfx
        suffix := sliceLast4 rawKey
        name := cfg.name
        created_at := now
        expires_at := expiresAt
        last_used_at := none
        is_active := true
        metadata := cfg.metadata
        scopes := cfg.scopes
        rate_limit := cfg.rateLimit }
    if s.apiKeys.any (fun r => r.id = newId || r.key_hash = keyHash) then
      { result := .error .uniqueConstraint, bytesDrawn := gen.bytesDrawn, store := s }
    else
      { result := .ok (rawKey, row)
        bytesDrawn := gen.bytesDrawn
        store := { s with apiKeys := s.apiKeys ++ [row] } }

/-- The row condition `key_id = ? AND window_start = ?` of the
`rate_limit_records` queries. -/
def pairPred (keyId : String) (windowStart : Int) : RateRecord → Bool :=
  fun r => r.key_id = keyId && r.window_start = windowStart

/-- The upsert of `checkRateLimit`:
`INSERT ... VALUES (?, ?, 1) ON CONFLICT (key_id, window_start) DO UPDATE SET
request_count = request_count + 1`. -/
def upsertRate (keyId : String) (windowStart : Int) (s : Store) : Store :=
  if s.rateRecords.any (pairPred keyId windowStart) then
    { s with rateRecords := s.rateRecords.map fun r =>
        if pairPred keyId windowStart r then
          { r with request_count := r.request_count + 1 }
        else r }
  else
    { s with rateRecords :=
        s.rateRecords ++ [{ key_id := keyId, window_start := windowStart, request_count := 1 }] }

/-- `ApiKeyService.checkRateLimit(keyId, limit)`.  Returns
`(true = rate limited, store afterwards)`.  `windowStart` is
`Math.floor(now / 60000) * 60000` (floor division). -/
def checkRateLimit (keyId : String) (limit : Int) (now : Int) (s : Store) :
    Bool × Store :=
  let windowStart := now.fdiv 60000 * 60000
  -- DELETE FROM rate_limit_records WHERE window_start < windowStart - 60000
  let s1 : Store :=
    { s with rateRecords :=
        s.rateRecords.filter fun r => !decide (r.window_start < windowStart - 60000) }
  -- SELECT request_count ... WHERE key_id = ? AND window_start = ?  +  .get
  match s1.rateRecords.find? (pairPred keyId windowStart) with
  | some r =>
    if limit ≤ r.request_count then (true, s1)
    else (false, upsertRate keyId windowStart s1)
  | none => (false, upsertRate keyId windowStart s1)

/-- The reason codes of `ApiKeyValidationResult`. -/
inductive Reason
  | not_found
  | revoked
  | expired
  | rate_limited
deriving DecidableEq, Repr

/-- `ApiKeyValidationResult` of types/index.ts. -/
structure ValidationResult where
  valid : Bool
  reason : Option Reason
  key : Option ApiKey
deriving DecidableEq, Repr

/-- The expiry test validate applies to a found row:
`apiKey.expiresAt && apiKey.expiresAt < new Date()` (a `Date` object is always
truthy, and `rowToApiKey` already turned a falsy `expires_at` into `null`). -/
def isExpiredAt (row : ApiKeyRow) (now : Int) : Bool :=
  match (rowToApiKey row).expiresAt with
  | some e => decide (e < now)
  | none => false

/-- The guarded rate-limit step of validate:
`if (checkRateLimit && apiKey.rateLimit) { isRateLimited = this.checkRateLimit(apiKey.id, apiKey.rateLimit) ... }`
with the option already known true.  `apiKey.rateLimit` is truthy exactly when
it is non-null and non-zero; when the guard is falsy the store is untouched
and the request is not limited. -/
def rateStep (row : ApiKeyRow) (now : Int) (s : Store) : Bool × Store :=
  match (rowToApiKey row).rateLimit with
  | some n => if n = 0 then (false, s) else checkRateLimit row.id n now s
  | none => (false, s)

/-- `ApiKeyService.validate(key, {updateLastUsed, checkRateLimit})`.  Returns
the result and the store afterwards. -/
def validate (key : String) (updateLastUsed checkRL : Bool)
    (hash : String → String) (now : Int) (s : Store) :
    ValidationResult × Store :=
  let keyHash := hash key
  match s.apiKeys.find? (fun r => r.key_hash = keyHash) with
  | none => ({ valid := false, reason := some .not_found, key := none }, s)
  | some row =>
    let apiKey := rowToApiKey row
    if !apiKey.isActive then
      ({ valid := false, reason := some .revoked, key := some apiKey }, s)
    else if isExpiredAt row now then
      ({ valid := false, reason := some .expired, key := some apiKey }, s)
    else
      let rlStep : Bool × Store := if checkRL then rateStep row now s else (false, s)
      if rlStep.1 then
        ({ valid := false, reason := some .rate_limited, key := some apiKey }, rlStep.2)
      else if updateLastUsed then
        let s2 : Store :=
          { rlStep.2 with apiKeys := rlStep.2.apiKeys.map fun r =>
              if r.id = apiKey.id then { r with last_used_at := some now } else r }
        ({ valid := true, reason := none, key := some { apiKey with lastUsedAt := some now } }, s2)
      else
        ({ valid := true, reason := none, key := some apiKey }, rlStep.2)

/-- `ApiKeyService.revoke(keyId)`:
`UPDATE api_keys SET is_active = 0 WHERE id = ?; return changes > 0`.
SQLite's `changes` counts the rows matched by the UPDATE. -/
def revoke (keyId : String) (s : Store) : Bool × Store :=
  let changes := (s.apiKeys.filter fun r => r.id = keyId).length
  (decide (0 < changes),
   { s with apiKeys := s.apiKeys.map fun r =>
       if r.id = keyId then { r with is_active := false } else r })

/-- The record `getStats` returns. -/
structure Stats where
  total : Nat
  active : Nat
  expired : Nat
  revoked : Nat
deriving DecidableEq, Repr

/-- `ApiKeyService.getStats()`: four independent COUNT queries at one `now`. -/
def getStats (now : Int) (s : Store) : Stats :=
  { total := s.apiKeys.length
    active := (s.apiKeys.filter fun r =>
        r.is_active && (match r.expires_at with
          | none => true
          | some e => decide (now < e))).length
    expired := (s.apiKeys.filter fun r =>
        match r.expires_at with
        | none => false
        | some e => decide (e ≤ now)).length
    revoked := (s.apiKeys.filter fun r => !r.is_active).length }

/-- Sequential validations' rate-limit calls within one process: run
`checkRateLimit` once per timestamp of `nows`, threading the store. -/
def runChecks (keyId : String) (limit : Int) (nows : List Int) (s : Store) :
    List Bool × Store :=
  match nows with
  | [] => ([], s)
  | n :: rest =>
    let step := checkRateLimit keyId limit n s
    let tail := runChecks keyId limit rest step.2
    (step.1 :: tail.1, tail.2)

end ApiKeyService

/-- A concrete creation configuration used in witness scenarios:
hex charset, a 1-character random body, rate limit 3. -/
def sampleCfg : MergedConfig :=
  { pfx := "rapids_", length := 1, charset := some .hex, rateLimit := some 3 }

/-- The row that `create sampleCfg` persists when the random byte is 0, the
hash is `"#" ++ ·`, the id is `"id-1"` and the clock reads 0. -/
def sampleRow : ApiKeyRow :=
  { id := "id-1", key_hash := "#rapids_0", pfx := "rapids_", suffix := "ds_0",
    name := none, created_at := 0, expires_at := none, last_used_at := none,
    is_active := true, metadata := "{}", scopes := "[]", rate_limit := some 3 }

/-- The "active" bucket as the spec's words define it (C8): `isActive` true
and (`expiresAt` unset or `expiresAt > now`). -/
def specActive (now : Int) (r : ApiKeyRow) : Bool :=
  r.is_active && r.expires_at.elim true (fun e => decide (now < e))

/-- The "expired" bucket as the spec's words define it (C8): `expiresAt` set
and `expiresAt ≤ now`, regardless of `isActive`. -/
def specExpired (now : Int) (r : ApiKeyRow) : Bool :=
  r.expires_at.elim false (fun e => decide (e ≤ now))

/-- The "revoked" bucket as the spec's words define it (C8): `isActive`
false, regardless of expiry. -/
def specRevoked (r : ApiKeyRow) : Bool :=
  !r.is_active

/-- A record that is both revoked (`is_active` false) and expired
(`expires_at` in the past), used to exhibit C8's double counting. -/
def deadRow : ApiKeyRow :=
  { id := "d", key_hash := "h", pfx := "p", suffix := "s", name := none,
    created_at := -10, expires_at := some (-5), last_used_at := none,
    is_active := false, metadata := "{}", scopes := "[]", rate_limit := none }

/-- An active key whose expiry instant is exactly 1000 — presented to
validate at now = 1000 to probe the expiry boundary. -/
def boundaryRow : ApiKeyRow :=
  { id := "b1", key_hash := "H", pfx := "p", suffix := "s", name := none,
    created_at := 0, expires_at := some 1000, last_used_at := none,
    is_active := true, metadata := "{}", scopes := "[]", rate_limit := none }

/-- An active key that is strictly expired at now = 1000. -/
def expiredRow : ApiKeyRow :=
  { id := "e1", key_hash := "H", pfx := "p", suffix := "s", name := none,
    created_at := 0, expires_at := some 500, last_used_at := none,
    is_active := true, metadata := "{}", scopes := "[]", rate_limit := none }

/-- The row that `create` persists in the C10 witness scenario (expiresIn 0,
empty random body). -/
def sampleRow10 : ApiKeyRow :=
  { id := "id-2", key_hash := "#rapids_", pfx := "rapids_", suffix := "ids_",
    name := none, created_at := 0, expires_at := none, last_used_at := none,
    is_active := true, metadata := "{}", scopes := "[]", rate_limit := none }

/-- Every textual column value that `create` writes into the persisted row
(the durable data of the key): id, hash, prefix fragment, suffix fragment,
serialized metadata and scopes, and the optional name. -/
def rowStrings (row : ApiKeyRow) : List String :=
  [row.id, row.key_hash, row.pfx, row.suffix, row.metadata, row.scopes] ++
    row.name.toList

/-! ### List helper lemmas -/

theorem find?_eq_head?_filter {α : Type} (p : α → Bool) (l : List α) :
    l.find? p = (l.filter p).head? := by
  induction l with
  | nil => rfl
  | cons a t ih =>
    rw [List.find?_cons, List.filter_cons]
    cases h : p a
    · exact ih
    · simp

theorem filter_filter_of_imp {α : Type} {p q : α → Bool} (l : List α)
    (h : ∀ a, p a = true → q a = true) :
    (l.filter q).filter p = l.filter p := by
  rw [List.filter_filter]
  refine List.filter_congr fun a _ => ?_
  cases hp : p a
  · simp
  · simp [h a hp]

theorem filter_map_comm {α : Type} {p : α → Bool} {f : α → α} (l : List α)
    (h : ∀ a, p (f a) = p a) :
    (l.map f).filter p = (l.filter p).map f := by
  rw [List.filter_map]
  exact congrArg _ (List.filter_congr fun a _ => h a)

theorem filter_eq_nil_any {α : Type} {p : α → Bool} {l : List α}
    (h : l.filter p = []) : l.any p = false := by
  cases hany : l.any p
  · rfl
  · obtain ⟨x, hx, hpx⟩ := List.any_eq_true.mp hany
    have : x ∈ l.filter p := List.mem_filter.mpr ⟨hx, hpx⟩
    rw [h] at this
    exact absurd this (List.not_mem_nil x)

theorem filter_singleton_any {α : Type} {p : α → Bool} {l : List α} {a : α}
    (h : l.filter p = [a]) : l.any p = true := by
  have : a ∈ l.filter p := h ▸ List.mem_singleton_self a
  exact List.any_eq_true.mpr ⟨a, (List.mem_filter.mp this).1, (List.mem_filter.mp this).2⟩

theorem find?_append_singleton {α : Type} {p : α → Bool} {l : List α} {a : α}
    (hl : ∀ x ∈ l, p x = false) (ha : p a = true) :
    (l ++ [a]).find? p = some a := by
  rw [find?_eq_head?_filter, List.filter_append]
  have hnil : l.filter p = [] :=
    List.filter_eq_nil_iff.mpr fun x hx => by simp [hl x hx]
  rw [hnil]
  simp [ha]

theorem foldl_append_length_one (l : List String)
    (h : ∀ x ∈ l, x.length = 1) :
    ∀ acc : String, (l.foldl (fun r t => r ++ t) acc).length =
      acc.length + l.length := by
  induction l with
  | nil =>
    intro acc
    simp
  | cons a t ih =>
    intro acc
    rw [List.foldl_cons, ih (fun x hx => h x (List.mem_cons_of_mem a hx)),
      String.length_append, h a (List.mem_cons_self a t), List.length_cons]
    omega

/-- Each charset of `CHARSETS` is a nonempty alphabet. -/
theorem charsetChars_ne_empty (c : Charset) : (charsetChars c).data.length ≠ 0 := by
  cases c <;> decide

/-- A successfully generated random body has exactly the requested number of
characters (each loop step appends one character of the nonempty charset). -/
theorem buildBody_ok_length (cs : String) (bytes : Nat → Nat) (n : Nat)
    (body : String) (hcs : cs.data.length ≠ 0)
    (h : buildBody (some cs) bytes n = .ok body) :
    body.length = n := by
  have hb : String.join ((List.range n).map fun i => charFromByte cs (bytes i))
      = body := by
    simpa [buildBody] using h
  have hone : ∀ x ∈ (List.range n).map (fun i => charFromByte cs (bytes i)),
      x.length = 1 := by
    intro x hx
    obtain ⟨i, -, rfl⟩ := List.mem_map.mp hx
    unfold charFromByte
    rw [if_neg hcs]
    rfl
  rw [← hb]
  show ((((List.range n).map fun i => charFromByte cs (bytes i))).foldl
    (fun r t => r ++ t) "").length = n
  rw [foldl_append_length_one _ hone ""]
  simp

/-- `slice(-4)` keeps `length - (length - 4)` characters: four of a longer
string, the whole of a string of at most four characters. -/
theorem sliceLast4_length (s : String) :
    (sliceLast4 s).length = s.length - (s.length - 4) := by
  show (s.data.drop (s.data.length - 4)).length =
    s.data.length - (s.data.length - 4)
  rw [List.length_drop]

namespace ApiKeyService

/-- A successful `create` call pins down everything: the persisted row's
fields, the store afterwards (the row appended to `api_keys`, nothing else
touched), the absence of duplicate id/hash in the prior store, and the raw
key's shape `prefix ++ body` with the body produced by the charset loop. -/
theorem create_ok_shape (cfg : MergedConfig) (hash : String → String)
    (newId : String) (bytes : Nat → Nat) (now : Int) (s : Store)
    (rawKey : String) (row : ApiKeyRow)
    (hcr : (create cfg hash newId bytes now s).result = .ok (rawKey, row)) :
    row = { id := newId, key_hash := hash rawKey, pfx := cfg.pfx,
            suffix := sliceLast4 rawKey, name := cfg.name, created_at := now,
            expires_at := expiresAtOf cfg.expiresIn now, last_used_at := none,
            is_active := true, metadata := cfg.metadata, scopes := cfg.scopes,
            rate_limit := cfg.rateLimit } ∧
    create cfg hash newId bytes now s =
      { result := .ok (rawKey, row), bytesDrawn := cfg.length.toNat,
        store := { s with apiKeys := s.apiKeys ++ [row] } } ∧
    (∀ x ∈ s.apiKeys, x.id ≠ newId ∧ x.key_hash ≠ hash rawKey) ∧
    (∃ body, rawKey = cfg.pfx ++ body ∧
       buildBody (cfg.charset.map charsetChars) bytes cfg.length.toNat = .ok body ∧
       ¬ cfg.length < 0) := by
  by_cases hlen : cfg.length < 0
  · exfalso
    simp [create, generateRandomString, hlen] at hcr
  · cases hbody : buildBody (cfg.charset.map charsetChars) bytes cfg.length.toNat with
    | error e =>
      exfalso
      simp [create, generateRandomString, hlen, hbody] at hcr
    | ok body =>
      by_cases hdup : s.apiKeys.any
          (fun r => r.id = newId || r.key_hash = hash (cfg.pfx ++ body)) = true
      · exfalso
        simp only [create, generateRandomString, hlen, if_false, hbody, hdup,
          if_true] at hcr
        exact absurd hcr (by simp)
      · have hdup' : s.apiKeys.any
            (fun r => r.id = newId || r.key_hash = hash (cfg.pfx ++ body)) = false :=
          Bool.eq_false_iff.mpr hdup
        simp only [create, generateRandomString, hlen, if_false, hbody, hdup',
          Bool.false_eq_true] at hcr
        obtain ⟨hraw, hrow⟩ : cfg.pfx ++ body = rawKey ∧ _ = row := by
          simpa using hcr
        subst hraw
        subst hrow
        refine ⟨rfl, ?_, ?_, body, rfl, rfl, hlen⟩
        · simp only [create, generateRandomString, hlen, if_false, hbody, hdup',
            Bool.false_eq_true]
        · intro x hx
          have hfalse : (decide (x.id = newId) ||
              decide (x.key_hash = hash (cfg.pfx ++ body))) = false := by
            cases hpx : (decide (x.id = newId) ||
                decide (x.key_hash = hash (cfg.pfx ++ body)))
            · rfl
            · have hany : (s.apiKeys.any fun r => decide (r.id = newId) ||
                  decide (r.key_hash = hash (cfg.pfx ++ body))) = true :=
                List.any_eq_true.mpr ⟨x, hx, hpx⟩
              rw [hdup'] at hany
              exact absurd hany Bool.false_ne_true
          constructor
          · intro h1
            simp [h1] at hfalse
          · intro h2
            simp [h2] at hfalse

theorem cleanup_filter_pair (keyId : String) (ws threshold : Int)
    (h : ¬ ws < threshold) (l : List RateRecord) :
    (l.filter fun r => !decide (r.window_start < threshold)).filter
        (pairPred keyId ws) =
      l.filter (pairPred keyId ws) := by
  refine filter_filter_of_imp l fun r hp => ?_
  have hw : r.window_start = ws := by
    simp [pairPred] at hp
    exact hp.2
  simp [hw, h]

/-- One `checkRateLimit` call when the (keyId, window) pair has no row yet:
the request is allowed (whatever the limit) and the counter is initialized
to 1. -/
theorem checkRateLimit_pair_fresh (keyId : String) (N now w : Int) (s : Store)
    (hnow : now.fdiv 60000 = w)
    (h : s.rateRecords.filter (pairPred keyId (w * 60000)) = []) :
    (checkRateLimit keyId N now s).1 = false ∧
    (checkRateLimit keyId N now s).2.rateRecords.filter
        (pairPred keyId (w * 60000)) =
      [{ key_id := keyId, window_start := w * 60000, request_count := 1 }] := by
  subst hnow
  have hclean := cleanup_filter_pair keyId (now.fdiv 60000 * 60000)
    (now.fdiv 60000 * 60000 - 60000) (by omega) s.rateRecords
  have hfind : (s.rateRecords.filter fun r =>
      !decide (r.window_start < now.fdiv 60000 * 60000 - 60000)).find?
        (pairPred keyId (now.fdiv 60000 * 60000)) = none := by
    rw [find?_eq_head?_filter, hclean, h]
    rfl
  have hany : (s.rateRecords.filter fun r =>
      !decide (r.window_start < now.fdiv 60000 * 60000 - 60000)).any
        (pairPred keyId (now.fdiv 60000 * 60000)) = false :=
    filter_eq_nil_any (by rw [hclean, h])
  constructor
  · simp only [checkRateLimit, hfind]
  · simp only [checkRateLimit, hfind, upsertRate, hany, Bool.false_eq_true,
      if_false, List.filter_append, hclean, h]
    simp [pairPred]

/-- One `checkRateLimit` call when the (keyId, window) pair holds count `c`:
the request is rejected iff `c` has reached the limit, and the counter is
incremented exactly when it is allowed. -/
theorem checkRateLimit_pair_step (keyId : String) (N now w c : Int) (s : Store)
    (hnow : now.fdiv 60000 = w)
    (h : s.rateRecords.filter (pairPred keyId (w * 60000)) =
      [{ key_id := keyId, window_start := w * 60000, request_count := c }]) :
    (checkRateLimit keyId N now s).1 = decide (N ≤ c) ∧
    (checkRateLimit keyId N now s).2.rateRecords.filter
        (pairPred keyId (w * 60000)) =
      [{ key_id := keyId, window_start := w * 60000,
         request_count := if N ≤ c then c else c + 1 }] := by
  subst hnow
  have hclean := cleanup_filter_pair keyId (now.fdiv 60000 * 60000)
    (now.fdiv 60000 * 60000 - 60000) (by omega) s.rateRecords
  have hfind : (s.rateRecords.filter fun r =>
      !decide (r.window_start < now.fdiv 60000 * 60000 - 60000)).find?
        (pairPred keyId (now.fdiv 60000 * 60000)) =
      some { key_id := keyId, window_start := now.fdiv 60000 * 60000,
             request_count := c } := by
    rw [find?_eq_head?_filter, hclean, h]
    rfl
  have hany : (s.rateRecords.filter fun r =>
      !decide (r.window_start < now.fdiv 60000 * 60000 - 60000)).any
        (pairPred keyId (now.fdiv 60000 * 60000)) = true :=
    filter_singleton_any (by rw [hclean, h])
  have hpres : ∀ r : RateRecord,
      pairPred keyId (now.fdiv 60000 * 60000)
        (if pairPred keyId (now.fdiv 60000 * 60000) r then
          { r with request_count := r.request_count + 1 } else r) =
      pairPred keyId (now.fdiv 60000 * 60000) r := by
    intro r
    cases hp : pairPred keyId (now.fdiv 60000 * 60000) r
    · simp [hp]
    · simp only [hp, if_true]
      simp [pairPred] at hp ⊢
      exact hp
  by_cases hNc : N ≤ c
  · constructor
    · simp only [checkRateLimit, hfind]
      simp [hNc]
    · simp only [checkRateLimit, hfind]
      rw [if_pos hNc, if_pos hNc]
      rw [hclean, h]
  · constructor
    · simp only [checkRateLimit, hfind]
      simp [hNc]
    · simp only [checkRateLimit, hfind]
      rw [if_neg hNc, if_neg hNc]
      simp only [upsertRate, hany, if_true]
      rw [filter_map_comm _ hpres, hclean, h]
      simp [pairPred]

/-- Running the remaining calls of a window when the pair already holds count
`c` with `1 ≤ c ≤ N`: the i-th further call is rejected iff the limit is
already reached by `c + i`, and the counter ends at `min (c + #calls) N`. -/
theorem runChecks_loaded (keyId : String) (N w : Int) (nows : List Int)
    (hw : ∀ n ∈ nows, n.fdiv 60000 = w) :
    ∀ (s : Store) (c : Int), 1 ≤ c → c ≤ N →
      s.rateRecords.filter (pairPred keyId (w * 60000)) =
        [{ key_id := keyId, window_start := w * 60000, request_count := c }] →
      (runChecks keyId N nows s).1 =
        (List.range nows.length).map (fun i : Nat => decide (N ≤ c + (i : Int))) ∧
      (runChecks keyId N nows s).2.rateRecords.filter
          (pairPred keyId (w * 60000)) =
        [{ key_id := keyId, window_start := w * 60000,
           request_count := min (c + (nows.length : Int)) N }] := by
  induction nows with
  | nil =>
    intro s c hc1 hcN h
    refine ⟨rfl, ?_⟩
    simp only [runChecks]
    rw [h]
    have hmin : min (c + ((List.length ([] : List Int) : Nat) : Int)) N = c := by
      simp only [List.length_nil, Nat.cast_zero, add_zero]
      omega
    rw [hmin]
  | cons n rest ih =>
    intro s c hc1 hcN h
    have hn : n.fdiv 60000 = w := hw n (List.mem_cons_self n rest)
    have hrest : ∀ m ∈ rest, m.fdiv 60000 = w := fun m hm => hw m (List.mem_cons_of_mem n hm)
    obtain ⟨hres, hstore⟩ := checkRateLimit_pair_step keyId N n w c s hn h
    have hc'1 : 1 ≤ (if N ≤ c then c else c + 1) := by
      by_cases hNc : N ≤ c <;> simp [hNc] <;> omega
    have hc'N : (if N ≤ c then c else c + 1) ≤ N := by
      by_cases hNc : N ≤ c
      · simpa [hNc] using hcN
      · simp only [hNc, if_false]
        omega
    obtain ⟨ihres, ihstore⟩ :=
      ih hrest (checkRateLimit keyId N n s).2 (if N ≤ c then c else c + 1) hc'1 hc'N hstore
    constructor
    · show (checkRateLimit keyId N n s).1 ::
        (runChecks keyId N rest (checkRateLimit keyId N n s).2).1 = _
      rw [hres, ihres, List.length_cons, List.range_succ_eq_map, List.map_cons,
        List.map_map]
      congr 1
      · simp
      · refine List.map_congr_left fun i _ => ?_
        simp only [Function.comp_apply]
        refine decide_eq_decide.mpr ?_
        by_cases hNc : N ≤ c
        · simp only [hNc, if_true]
          push_cast
          omega
        · simp only [hNc, if_false]
          push_cast
          omega
    · show (runChecks keyId N rest (checkRateLimit keyId N n s).2).2.rateRecords.filter _ = _
      rw [ihstore]
      have hmin : min ((if N ≤ c then c else c + 1) + (rest.length : Int)) N =
          min (c + (((n :: rest).length : Nat) : Int)) N := by
        by_cases hNc : N ≤ c
        · simp only [hNc, if_true, List.length_cons]
          push_cast
          omega
        · simp only [hNc, if_false, List.length_cons]
          push_cast
          omega
      rw [hmin]

end ApiKeyService

section Claims

open ApiKeyService

/-- C1: for every presented raw key and store state, `validate` (with its
default options) checks in the order not_found → revoked → expired →
rate_limited → success and returns the reason of the first failing check:
no row whose `key_hash` is the hash of the presented key ⇒
`{valid:false, reason:not_found}` with no key; a row found with
`is_active = false` ⇒ `{valid:false, reason:revoked}` with the key, regardless
of expiry or rate limit; found and active but expired ⇒
`{valid:false, reason:expired}`; found, active, not expired but rate-limited ⇒
`{valid:false, reason:rate_limited}`; otherwise `{valid:true}` with the key. -/
theorem C1_validate_check_order (key : String) (hash : String → String)
    (now : Int) (s : Store) :
    (s.apiKeys.find? (fun r => r.key_hash = hash key) = none →
      (validate key true true hash now s).1 =
        { valid := false, reason := some .not_found, key := none }) ∧
    (∀ row, s.apiKeys.find? (fun r => r.key_hash = hash key) = some row →
      (row.is_active = false →
        (validate key true true hash now s).1 =
          { valid := false, reason := some .revoked, key := some (rowToApiKey row) }) ∧
      (row.is_active = true → isExpiredAt row now = true →
        (validate key true true hash now s).1 =
          { valid := false, reason := some .expired, key := some (rowToApiKey row) }) ∧
      (row.is_active = true → isExpiredAt row now = false →
        (rateStep row now s).1 = true →
        (validate key true true hash now s).1 =
          { valid := false, reason := some .rate_limited, key := some (rowToApiKey row) }) ∧
      (row.is_active = true → isExpiredAt row now = false →
        (rateStep row now s).1 = false →
        (validate key true true hash now s).1 =
          { valid := true, reason := none,
            key := some { rowToApiKey row with lastUsedAt := some now } })) := by
  have hact : ∀ row : ApiKeyRow, (rowToApiKey row).isActive = row.is_active :=
    fun _ => rfl
  constructor
  · intro hfind
    simp only [validate, hfind]
  · intro row hfind
    refine ⟨?_, ?_, ?_, ?_⟩
    · intro hrev
      simp only [validate, hfind, hact, hrev, Bool.not_false, if_true]
    · intro hactive hexp
      simp only [validate, hfind, hact, hactive, hexp, Bool.not_true,
        Bool.false_eq_true, if_false, if_true]
    · intro hactive hexp hrl
      simp only [validate, hfind, hact, hactive, hexp, Bool.not_true,
        Bool.false_eq_true, if_false, if_true, hrl]
    · intro hactive hexp hrl
      simp only [validate, hfind, hact, hactive, hexp, Bool.not_true,
        Bool.false_eq_true, if_false, if_true, hrl]

/-- C2: for a key with a positive rate limit N, within a single 60-second
window (all timestamps share `windowStart = floor(now/60000)*60000`) and
starting with no counter row for the pair, the first N checks are permitted —
each incrementing the (keyId, windowStart) counter by exactly 1, the first
call initializing it to 1 — and every later call is rejected without
incrementing the counter: the i-th call (0-based) is rejected iff N ≤ i and
after all calls the counter holds min(#calls, N), so it never exceeds N. -/
theorem C2_rate_limit_window (keyId : String) (N w : Int) (nows : List Int)
    (s : Store) (hN : 0 < N)
    (hw : ∀ n ∈ nows, n.fdiv 60000 = w)
    (h0 : s.rateRecords.filter (pairPred keyId (w * 60000)) = []) :
    (runChecks keyId N nows s).1 =
      (List.range nows.length).map (fun i : Nat => decide (N ≤ (i : Int))) ∧
    (runChecks keyId N nows s).2.rateRecords.filter (pairPred keyId (w * 60000)) =
      (if nows = [] then ([] : List RateRecord)
       else [{ key_id := keyId, window_start := w * 60000,
               request_count := min ((nows.length : Int)) N }]) := by
  cases nows with
  | nil =>
    refine ⟨rfl, ?_⟩
    simp only [runChecks]
    simpa using h0
  | cons n rest =>
    have hn : n.fdiv 60000 = w := hw n (List.mem_cons_self n rest)
    have hrest : ∀ m ∈ rest, m.fdiv 60000 = w :=
      fun m hm => hw m (List.mem_cons_of_mem n hm)
    obtain ⟨hres, hstore⟩ := checkRateLimit_pair_fresh keyId N n w s hn h0
    obtain ⟨ihres, ihstore⟩ := runChecks_loaded keyId N w rest hrest
      (checkRateLimit keyId N n s).2 1 le_rfl hN hstore
    constructor
    · show (checkRateLimit keyId N n s).1 ::
        (runChecks keyId N rest (checkRateLimit keyId N n s).2).1 = _
      rw [hres, ihres, List.length_cons, List.range_succ_eq_map, List.map_cons,
        List.map_map]
      congr 1
      · simp only [Nat.cast_zero]
        rw [decide_eq_false (by omega : ¬ (N ≤ (0 : Int)))]
      · refine List.map_congr_left fun i _ => ?_
        simp only [Function.comp_apply]
        refine decide_eq_decide.mpr ?_
        push_cast
        omega
    · show (runChecks keyId N rest (checkRateLimit keyId N n s).2).2.rateRecords.filter _ = _
      rw [ihstore, if_neg (List.cons_ne_nil n rest)]
      have hmin : min ((1 : Int) + (rest.length : Int)) N =
          min (((n :: rest).length : Nat) : Int) N := by
        simp only [List.length_cons]
        push_cast
        omega
      rw [hmin]

/-- Witness for C2: limit 2, three calls at timestamps 0, 59999, 30000 (all in
window 0) on an empty store — permitted, permitted, rejected. -/
theorem C2_rate_limit_window_witness :
    (runChecks "k" 2 [0, 59999, 30000] ⟨[], []⟩).1 =
      (List.range 3).map (fun i : Nat => decide ((2 : Int) ≤ (i : Int))) :=
  (C2_rate_limit_window "k" 2 0 [0, 59999, 30000] ⟨[], []⟩ (by decide)
    (by decide) rfl).1

/-- C3: round trip — `create()` followed by `validate` on the returned raw key
yields `valid:true`, and the key record returned by validate is the record
create persisted (same id, with only `lastUsedAt` refreshed), provided the key
is not yet expired at validation time and its rate limit (if any) is not
exhausted (no counter row for its id in the current window; the key cannot
have been revoked in between since no other operation ran). -/
theorem C3_create_validate_roundtrip (cfg : MergedConfig)
    (hash : String → String) (newId : String) (bytes : Nat → Nat)
    (now now2 : Int) (s : Store) (rawKey : String) (row : ApiKeyRow)
    (hcr : (create cfg hash newId bytes now s).result = .ok (rawKey, row))
    (hexp : isExpiredAt row now2 = false)
    (hfresh : s.rateRecords.filter
      (pairPred row.id (now2.fdiv 60000 * 60000)) = []) :
    (validate rawKey true true hash now2
        (create cfg hash newId bytes now s).store).1 =
      { valid := true, reason := none,
        key := some { rowToApiKey row with lastUsedAt := some now2 } } ∧
    row.id = newId := by
  obtain ⟨hrow, hout, hnodup, -⟩ :=
    create_ok_shape cfg hash newId bytes now s rawKey row hcr
  have hstore : (create cfg hash newId bytes now s).store =
      { s with apiKeys := s.apiKeys ++ [row] } := by rw [hout]
  have hhash : row.key_hash = hash rawKey := by rw [hrow]
  have hid : row.id = newId := by rw [hrow]
  have hactive : row.is_active = true := by rw [hrow]
  refine ⟨?_, hid⟩
  rw [hstore]
  have hfind : (s.apiKeys ++ [row]).find?
      (fun r => r.key_hash = hash rawKey) = some row := by
    refine find?_append_singleton (fun x hx => ?_) (by simp [hhash])
    simp [(hnodup x hx).2]
  have hact' : (rowToApiKey row).isActive = row.is_active := rfl
  simp only [validate, hfind, hact', hactive, Bool.not_true, Bool.false_eq_true,
    if_false, hexp]
  have hfresh' : ({ s with apiKeys := s.apiKeys ++ [row] } : Store).rateRecords.filter
      (pairPred row.id (now2.fdiv 60000 * 60000)) = [] := hfresh
  have hrl : (rateStep row now2 { s with apiKeys := s.apiKeys ++ [row] }).1 = false := by
    unfold rateStep
    cases hlim : (rowToApiKey row).rateLimit with
    | none => rfl
    | some n =>
      by_cases hn : n = 0
      · simp [hn]
      · simp only [hn, if_false]
        exact (checkRateLimit_pair_fresh row.id n now2 (now2.fdiv 60000)
          { s with apiKeys := s.apiKeys ++ [row] } rfl hfresh').1
  simp only [hrl, Bool.false_eq_true, if_false, if_true]

/-- Witness for C3: a key `rapids_0` (hex charset, length 1, limit 3) created
at time 0 into an empty store validates successfully at time 5000. -/
theorem C3_create_validate_roundtrip_witness :
    (validate "rapids_0" true true (fun t => "#" ++ t) 5000
        (create sampleCfg (fun t => "#" ++ t) "id-1" (fun _ => 0) 0
          ⟨[], []⟩).store).1 =
      { valid := true, reason := none,
        key := some { rowToApiKey sampleRow with lastUsedAt := some 5000 } } ∧
    sampleRow.id = "id-1" :=
  C3_create_validate_roundtrip _ _ _ _ _ _ _ _ _ rfl rfl rfl

/-- C7: `revoke(id)` sets `is_active` to false on every record with that id
and returns true iff a record with that id exists in the store, independently
of the record's prior `is_active` value (so revoking an already-revoked
existing key still returns true, and false is returned exactly when the id
does not exist); all other records and the rate table are untouched. -/
theorem C7_revoke_found_iff (keyId : String) (s : Store) :
    ((revoke keyId s).1 = true ↔ ∃ r ∈ s.apiKeys, r.id = keyId) ∧
    (∀ r ∈ (revoke keyId s).2.apiKeys, r.id = keyId → r.is_active = false) ∧
    (revoke keyId s).2.apiKeys = s.apiKeys.map
      (fun r => if r.id = keyId then { r with is_active := false } else r) ∧
    (revoke keyId s).2.rateRecords = s.rateRecords := by
  refine ⟨?_, ?_, rfl, rfl⟩
  · simp only [revoke, decide_eq_true_eq]
    constructor
    · intro h
      have hne : s.apiKeys.filter (fun r => r.id = keyId) ≠ [] := by
        intro hnil
        rw [hnil] at h
        exact absurd h (by simp)
      obtain ⟨r, hr⟩ := List.exists_mem_of_ne_nil _ hne
      exact ⟨r, (List.mem_filter.mp hr).1, by
        have := (List.mem_filter.mp hr).2
        simpa using this⟩
    · rintro ⟨r, hr, hid⟩
      have : r ∈ s.apiKeys.filter (fun r => r.id = keyId) :=
        List.mem_filter.mpr ⟨hr, by simp [hid]⟩
      exact List.length_pos.mpr (List.ne_nil_of_mem this)
  · intro r hr hid
    simp only [revoke] at hr
    obtain ⟨a, ha, hfa⟩ := List.mem_map.mp hr
    by_cases haid : a.id = keyId
    · rw [if_pos haid] at hfa
      rw [← hfa]
    · rw [if_neg haid] at hfa
      rw [← hfa] at hid
      exact absurd hid haid

/-- C8: `getStats` computes four independent, non-exclusive counts: `total` is
the number of all records; `active` counts records with `isActive` true and
(`expiresAt` unset or `expiresAt > now`); `expired` counts records with
`expiresAt` set and `expiresAt ≤ now` regardless of `isActive`; `revoked`
counts records with `isActive` false regardless of expiry — and a record that
is both revoked and expired is counted in both buckets, so
`active+expired+revoked` need not equal `total`. -/
theorem C8_getStats_buckets :
    (∀ (now : Int) (s : Store),
      (getStats now s).total = s.apiKeys.length ∧
      (getStats now s).active = (s.apiKeys.filter (specActive now)).length ∧
      (getStats now s).expired = (s.apiKeys.filter (specExpired now)).length ∧
      (getStats now s).revoked = (s.apiKeys.filter specRevoked).length) ∧
    (∃ (now : Int) (s : Store) (r : ApiKeyRow), r ∈ s.apiKeys ∧
      specExpired now r = true ∧ specRevoked r = true ∧
      (getStats now s).active + (getStats now s).expired +
        (getStats now s).revoked ≠ (getStats now s).total) := by
  constructor
  · intro now s
    refine ⟨rfl, ?_, ?_, ?_⟩
    · simp only [getStats]
      congr 1
      refine List.filter_congr fun r _ => ?_
      cases h : r.expires_at <;> simp [specActive, h]
    · simp only [getStats]
      congr 1
      refine List.filter_congr fun r _ => ?_
      cases h : r.expires_at <;> simp [specExpired, h]
    · rfl
  · exact ⟨0, ⟨[deadRow], []⟩, deadRow, List.mem_singleton_self _,
      by decide, by decide, by decide⟩

/-- C10: a creation config with `expiresIn = 0` persists `expires_at = null`
(a key that never expires), exactly as a null `expiresIn` does; only a
non-zero, non-null `expiresIn` produces a concrete expiry of creation time
plus `expiresIn` seconds (`now + expiresIn * 1000` ms). -/
theorem C10_expiresIn_zero (cfg : MergedConfig) (hash : String → String)
    (newId : String) (bytes : Nat → Nat) (now : Int) (s : Store)
    (rawKey : String) (row : ApiKeyRow)
    (hcr : (create cfg hash newId bytes now s).result = .ok (rawKey, row)) :
    (cfg.expiresIn = some 0 → row.expires_at = none) ∧
    (cfg.expiresIn = none → row.expires_at = none) ∧
    (∀ e : Int, cfg.expiresIn = some e → e ≠ 0 →
      row.expires_at = some (now + e * 1000)) := by
  obtain ⟨hrow, -, -, -⟩ := create_ok_shape cfg hash newId bytes now s rawKey row hcr
  have hexp : row.expires_at = expiresAtOf cfg.expiresIn now := by rw [hrow]
  refine ⟨?_, ?_, ?_⟩
  · intro h
    rw [hexp, h]
    rfl
  · intro h
    rw [hexp, h]
    rfl
  · intro e he hne
    rw [hexp, he]
    simp [expiresAtOf, hne]

/-- Witness for C10: creating with `expiresIn = 0` (and an empty random body)
persists a record whose `expires_at` is null. -/
theorem C10_expiresIn_zero_witness : sampleRow10.expires_at = none :=
  (C10_expiresIn_zero
      { pfx := "rapids_", length := 0, charset := some .hex,
        expiresIn := some 0 }
      (fun t => "#" ++ t) "id-2" (fun _ => 0) 0 ⟨[], []⟩ "rapids_"
      sampleRow10 rfl).1 rfl

/-- Counterexample to C5 as stated: a found, active key whose `expiresAt`
equals `now` (expiry exactly at the boundary instant, so `expiresAt ≤ now`)
is NOT rejected as expired — validate succeeds, because the code compares
with strict `<`. -/
theorem C5_boundary_counterexample :
    (validate "x" true true (fun _ => "H") 1000 ⟨[boundaryRow], []⟩).1.valid
        = true ∧
    (validate "x" true true (fun _ => "H") 1000 ⟨[boundaryRow], []⟩).1.reason
        ≠ some .expired := by
  constructor
  · decide
  · decide

/-- C5 amended: for a found, active key, validate reports `expired` exactly
when `expiresAt` is set (to a non-zero timestamp — a zero `expires_at` is
falsy and treated as no expiry) and `expiresAt < now` STRICTLY; at the
boundary instant now = expiresAt the key is still accepted. -/
theorem C5_expiry_strict (key : String) (hash : String → String) (now : Int)
    (s : Store) (row : ApiKeyRow)
    (hfind : s.apiKeys.find? (fun r => r.key_hash = hash key) = some row)
    (hactive : row.is_active = true) :
    ((validate key true true hash now s).1.reason = some .expired ↔
      isExpiredAt row now = true) ∧
    (∀ e : Int, row.expires_at = some e → e ≠ 0 →
      (isExpiredAt row now = true ↔ e < now)) := by
  have hact : (rowToApiKey row).isActive = row.is_active := rfl
  constructor
  · constructor
    · intro hr
      cases hexp : isExpiredAt row now
      · exfalso
        cases hrl : (rateStep row now s).1
        · simp only [validate, hfind, hact, hactive, Bool.not_true,
            Bool.false_eq_true, if_false, hexp, if_true, hrl] at hr
          simp at hr
        · simp only [validate, hfind, hact, hactive, Bool.not_true,
            Bool.false_eq_true, if_false, hexp, if_true, hrl] at hr
          simp at hr
      · rfl
    · intro hexp
      simp only [validate, hfind, hact, hactive, Bool.not_true,
        Bool.false_eq_true, if_false, hexp, if_true]
  · intro e he hne
    simp [isExpiredAt, rowToApiKey, he, hne]

/-- Witness for C5 amended: a key with expiry 500, presented at now = 1000,
is reported expired (500 < 1000 strictly). -/
theorem C5_expiry_strict_witness :
    (validate "x" true true (fun _ => "H") 1000 ⟨[expiredRow], []⟩).1.reason =
      some .expired :=
  (C5_expiry_strict "x" (fun _ => "H") 1000 ⟨[expiredRow], []⟩ expiredRow
      rfl rfl).1.mpr (by decide)

/-- Counterexample to C6 as stated: a config with a non-positive length
(length = 0) is NOT rejected with a configuration error — create succeeds
and persists a record (its random body empty, the raw key just the prefix). -/
theorem C6_counterexample :
    (create { pfx := "rapids_", length := 0, charset := some .hex,
              expiresIn := some 0 }
        (fun t => "#" ++ t) "id-2" (fun _ => 0) 0 ⟨[], []⟩).result =
      .ok ("rapids_", sampleRow10) ∧
    (create { pfx := "rapids_", length := 0, charset := some .hex,
              expiresIn := some 0 }
        (fun t => "#" ++ t) "id-2" (fun _ => 0) 0 ⟨[], []⟩).store.apiKeys =
      [sampleRow10] :=
  ⟨rfl, rfl⟩

/-- C6 amended: create performs no up-front config validation.  A negative
length throws a range error at buffer allocation, before any random bytes and
before any store write; an unknown charset with a positive length throws a
type error in the generation loop — after the random bytes were already
drawn — but before any store write; a zero length (with an empty prior store)
is accepted outright and persists a record; and on every error path the store
is unchanged (no partial record). -/
theorem C6_no_config_validation (cfg : MergedConfig) (hash : String → String)
    (newId : String) (bytes : Nat → Nat) (now : Int) (s : Store) :
    (cfg.length < 0 →
      create cfg hash newId bytes now s =
        { result := .error .rangeError, bytesDrawn := 0, store := s }) ∧
    (¬ cfg.length < 0 → cfg.charset = none → cfg.length ≠ 0 →
      create cfg hash newId bytes now s =
        { result := .error .typeError, bytesDrawn := cfg.length.toNat,
          store := s }) ∧
    (cfg.length = 0 → s.apiKeys = [] → ∃ row,
      (create cfg hash newId bytes now s).result = .ok (cfg.pfx ++ "", row)) ∧
    (∀ e, (create cfg hash newId bytes now s).result = .error e →
      (create cfg hash newId bytes now s).store = s) := by
  refine ⟨?_, ?_, ?_, ?_⟩
  · intro hlen
    simp [create, generateRandomString, hlen]
  · intro hlen hcs hne
    have hn : cfg.length.toNat ≠ 0 := by omega
    simp [create, generateRandomString, hlen, hcs, buildBody, hn]
  · intro h0 hempty
    have hlen : ¬ cfg.length < 0 := by omega
    have htn : cfg.length.toNat = 0 := by omega
    refine ⟨{ id := newId, key_hash := hash (cfg.pfx ++ ""), pfx := cfg.pfx,
              suffix := sliceLast4 (cfg.pfx ++ ""), name := cfg.name,
              created_at := now, expires_at := expiresAtOf cfg.expiresIn now,
              last_used_at := none, is_active := true, metadata := cfg.metadata,
              scopes := cfg.scopes, rate_limit := cfg.rateLimit }, ?_⟩
    cases hcs : cfg.charset with
    | none =>
      simp [create, generateRandomString, hlen, hcs, htn, buildBody, hempty]
    | some c =>
      simp [create, generateRandomString, hlen, hcs, htn, buildBody, hempty,
        String.join]
  · intro e hres
    by_cases hlen : cfg.length < 0
    · simp [create, generateRandomString, hlen]
    · cases hbody : buildBody (cfg.charset.map charsetChars) bytes
          cfg.length.toNat with
      | error e2 =>
        simp [create, generateRandomString, hlen, hbody]
      | ok body =>
        by_cases hdup : s.apiKeys.any (fun r => r.id = newId ||
            r.key_hash = hash (cfg.pfx ++ body)) = true
        · simp [create, generateRandomString, hlen, hbody, hdup]
        · exfalso
          simp only [create, generateRandomString, hlen, if_false, hbody,
            Bool.eq_false_iff.mpr hdup, Bool.false_eq_true] at hres
          exact absurd hres (by simp)

/-- Counterexample to C4 as stated: with a zero-length config the raw key is
just the prefix, and the persisted `prefix` column IS the whole raw key — the
raw key string is written to the store verbatim. -/
theorem C4_counterexample :
    (create { pfx := "rapids_", length := 0, charset := some .hex,
              expiresIn := some 0 }
        (fun t => "#" ++ t) "id-2" (fun _ => 0) 0 ⟨[], []⟩).result =
      .ok ("rapids_", sampleRow10) ∧
    "rapids_" ∈ rowStrings sampleRow10 := by
  refine ⟨rfl, ?_⟩
  simp [rowStrings, sampleRow10]

/-- C4 amended: for a config with a nonempty random body (`length > 0`) whose
raw key is longer than four characters, the raw key appears in no textual
field of the persisted row — `keyHash` is the only column computed from the
full raw key, and the persisted `prefix` and `suffix` are proper fragments —
provided the caller-chosen values (id, name, metadata, scopes) and the digest
itself do not coincide with the raw key.  (For a zero-length body the
persisted prefix equals the whole raw key, and for raw keys of at most four
characters the suffix does: those degenerate configs are excluded.) -/
theorem C4_raw_key_not_persisted (cfg : MergedConfig) (hash : String → String)
    (newId : String) (bytes : Nat → Nat) (now : Int) (s : Store)
    (rawKey : String) (row : ApiKeyRow)
    (hcr : (create cfg hash newId bytes now s).result = .ok (rawKey, row))
    (hpos : 0 < cfg.length)
    (hlong : 4 < rawKey.length)
    (hhash : hash rawKey ≠ rawKey)
    (hid : newId ≠ rawKey) (hname : cfg.name ≠ some rawKey)
    (hmeta : cfg.metadata ≠ rawKey) (hscopes : cfg.scopes ≠ rawKey) :
    rawKey ∉ rowStrings row := by
  obtain ⟨hrow, -, -, body, hraw, hbody, -⟩ :=
    create_ok_shape cfg hash newId bytes now s rawKey row hcr
  cases hcs : cfg.charset with
  | none =>
    exfalso
    rw [hcs] at hbody
    have hn : cfg.length.toNat ≠ 0 := by omega
    simp [buildBody, hn] at hbody
  | some c =>
    rw [hcs] at hbody
    have hblen : body.length = cfg.length.toNat := by
      have := buildBody_ok_length (charsetChars c) bytes cfg.length.toNat body
        (charsetChars_ne_empty c) (by simpa using hbody)
      exact this
    have hbpos : 0 < body.length := by omega
    have hpfxlen : cfg.pfx.length < rawKey.length := by
      rw [hraw, String.length_append]
      omega
    have hsuflen : (sliceLast4 rawKey).length < rawKey.length := by
      rw [sliceLast4_length]
      omega
    intro hmem
    rw [hrow] at hmem
    simp only [rowStrings, List.mem_append, List.mem_cons,
      List.not_mem_nil, or_false] at hmem
    rcases hmem with (h | h | h | h | h | h) | h
    · exact hid h.symm
    · exact hhash h.symm
    · exact absurd (congrArg String.length h.symm) (by omega)
    · exact absurd (congrArg String.length h.symm) (by omega)
    · exact hmeta h.symm
    · exact hscopes h.symm
    · cases hn : cfg.name with
      | none =>
        rw [hn] at h
        simp at h
      | some nm =>
        rw [hn] at h
        simp at h
        exact hname (by rw [hn, h])

/-- Witness for C4 amended: the raw key `rapids_0` of the C3 scenario appears
in none of the textual columns of its persisted row. -/
theorem C4_raw_key_not_persisted_witness : "rapids_0" ∉ rowStrings sampleRow :=
  C4_raw_key_not_persisted sampleCfg (fun t => "#" ++ t) "id-1" (fun _ => 0) 0
    ⟨[], []⟩ "rapids_0" sampleRow rfl (by decide) (by decide) (by decide)
    (by decide) (by decide) (by decide) (by decide)

end Claims

end Rapids
